import Mathlib

/-!
Verification development for the ZeroGraph task-graph execution runtime
(`src/index.ts`).  The engine is shallowly embedded: node lifecycles are
state-passing functions, JS exceptions are `Except`, the mutable object graph
walked by the flow orchestrator is an explicit heap of node objects, and the
`Object.assign(Object.create(...), node)` per-step shallow clone is an explicit
heap allocation.  Traces record the engine's calls into task code (prepare /
execute / fallback / finalize) so that ordering and call-count properties can
be stated.
-/

namespace ZeroGraph

/-- Transition labels (`ActionType` in the source) are strings. -/
abbrev Label := String

/-- Errors raised by task code or the engine, identified by their message. -/
abbrev Err := String

/-- Run parameters: a JS object with string keys, modelled as an
insertion-ordered association list. -/
abbrev Params (ν : Type) := List (String × ν)

/-- Events recorded by the retry wrapper: each call of the underlying `exec`
(with the attempt index, i.e. the value of `curRetry` observed by that call)
and each call of `execFallback` (with the prep result and error it receives). -/
inductive RetryEvent (ν : Type) where
  | execAttempt (attempt : Nat)
  | fallbackCall (prepRes : ν) (err : Err)
  deriving Repr, DecidableEq

/-- Retry loop of `Node._exec` (src/index.ts lines 87-102), entered with
`this.curRetry = i`.  Returns the result (`Option.none` models the `undefined`
returned when the loop body never runs), the final value of `this.curRetry`,
and the ordered list of exec/fallback calls made.  `execF` receives the current
attempt index first, since `exec` can observe `this.curRetry` and may behave
differently on each attempt; the busy wait between attempts has no observable
effect in the model. -/
def nodeExecFrom {ν : Type} (maxRetries : Nat) (execF : Nat → ν → Except Err ν)
    (fb : ν → Err → Except Err ν) (prepRes : ν) (i : Nat) :
    Except Err (Option ν) × Nat × List (RetryEvent ν) :=
  if hi : i < maxRetries then
    match execF i prepRes with
    | .ok v => (.ok (some v), i, [.execAttempt i])
    | .error e =>
      if i = maxRetries - 1 then
        ((fb prepRes e).map some, i, [.execAttempt i, .fallbackCall prepRes e])
      else
        let r := nodeExecFrom maxRetries execF fb prepRes (i + 1)
        (r.1, r.2.1, .execAttempt i :: r.2.2)
  else (.ok none, i, [])
termination_by maxRetries - i
decreasing_by omega

/-- Wrapped execute of a retrying `Node`: the loop starts at `curRetry = 0`. -/
def nodeExec {ν : Type} (maxRetries : Nat) (execF : Nat → ν → Except Err ν)
    (fb : ν → Err → Except Err ν) (prepRes : ν) :
    Except Err (Option ν) × Nat × List (RetryEvent ν) :=
  nodeExecFrom maxRetries execF fb prepRes 0

/-- Default `Node.execFallback` (lines 83-85): re-raises the error. -/
def defaultFallback {ν : Type} : ν → Err → Except Err ν :=
  fun _ e => .error e

/-- Characterisation of the retry loop when every attempt from `i` on fails:
the fallback runs once with the error of attempt `maxRetries - 1`, the final
`curRetry` is `maxRetries - 1`, and exactly the attempts `i .. maxRetries - 1`
ran, in order. -/
theorem nodeExecFrom_always_fails {ν : Type} (k : Nat)
    (execF : Nat → ν → Except Err ν) (fb : ν → Err → Except Err ν) (p : ν)
    (errs : Nat → Err) (hf : ∀ j, j < k → execF j p = .error (errs j)) :
    ∀ d i, i + d + 1 = k →
      nodeExecFrom k execF fb p i =
        ((fb p (errs (k - 1))).map Option.some, k - 1,
          (List.range' i (d + 1)).map RetryEvent.execAttempt ++
            [RetryEvent.fallbackCall p (errs (k - 1))]) := by
  intro d
  induction d with
  | zero =>
    intro i hik
    have hik1 : i < k := by omega
    have hlast : i = k - 1 := by omega
    rw [nodeExecFrom, dif_pos hik1, hf i hik1]
    subst hlast
    simp [List.range']
  | succ d ih =>
    intro i hik
    have hik1 : i < k := by omega
    have hne : ¬ i = k - 1 := by omega
    rw [nodeExecFrom, dif_pos hik1, hf i hik1]
    simp only [if_neg hne, ih (i + 1) (by omega), List.range']
    simp

/-- Characterisation of the retry loop when attempts `i .. k - 2` fail and
attempt `k - 1` succeeds with `v`: the result is `v`, no fallback runs, the
final `curRetry` is `k - 1`, and the attempts `i .. k - 1` ran in order. -/
theorem nodeExecFrom_fails_then_succeeds {ν : Type} (k : Nat)
    (execF : Nat → ν → Except Err ν) (fb : ν → Err → Except Err ν) (p : ν)
    (errs : Nat → Err) (v : ν)
    (hf : ∀ j, j < k - 1 → execF j p = .error (errs j))
    (hs : execF (k - 1) p = .ok v) :
    ∀ d i, i + d + 1 = k →
      nodeExecFrom k execF fb p i =
        (.ok (some v), k - 1,
          (List.range' i (d + 1)).map RetryEvent.execAttempt) := by
  intro d
  induction d with
  | zero =>
    intro i hik
    have hik1 : i < k := by omega
    have hlast : i = k - 1 := by omega
    subst hlast
    rw [nodeExecFrom, dif_pos hik1, hs]
    simp [List.range']
  | succ d ih =>
    intro i hik
    have hik1 : i < k := by omega
    have hlt : i < k - 1 := by omega
    have hne : ¬ i = k - 1 := by omega
    rw [nodeExecFrom, dif_pos hik1, hf i hlt]
    simp only [if_neg hne, ih (i + 1) (by omega), List.range']
    simp

/-- Wrapped execute of `BatchNode` (lines 105-109): apply the single-item
retry logic `Node._exec` to each item in order; a raised exception (an item
whose fallback itself raises) aborts the map.  Returns the collected results
and the concatenated per-item retry traces. -/
def batchExec {ν : Type} (maxRetries : Nat) (execF : Nat → ν → Except Err ν)
    (fb : ν → Err → Except Err ν) :
    List ν → Except Err (List (Option ν)) × List (RetryEvent ν)
  | [] => (.ok [], [])
  | it :: rest =>
    let r := nodeExec maxRetries execF fb it
    match r.1 with
    | .error e => (.error e, r.2.2)
    | .ok v =>
      let rs := batchExec maxRetries execF fb rest
      (rs.1.map (fun l => v :: l), r.2.2 ++ rs.2)

/-- Retry loop of `AsyncNode._exec` (lines 203-216): same retry structure as
`Node._exec`, but the attempt counter is a loop-local variable (`this.curRetry`
is never written) and the inter-attempt wait suspends instead of spinning. -/
def asyncExecFrom {ν : Type} (maxRetries : Nat) (execF : Nat → ν → Except Err ν)
    (fb : ν → Err → Except Err ν) (prepRes : ν) (i : Nat) :
    Except Err (Option ν) :=
  if hi : i < maxRetries then
    match execF i prepRes with
    | .ok v => .ok (some v)
    | .error e =>
      if i = maxRetries - 1 then (fb prepRes e).map some
      else asyncExecFrom maxRetries execF fb prepRes (i + 1)
  else .ok none
termination_by maxRetries - i
decreasing_by omega

/-- Wrapped execute of `AsyncNode`, started at attempt 0. -/
def asyncNodeExec {ν : Type} (maxRetries : Nat) (execF : Nat → ν → Except Err ν)
    (fb : ν → Err → Except Err ν) (prepRes : ν) : Except Err (Option ν) :=
  asyncExecFrom maxRetries execF fb prepRes 0

/-- Wrapped execute of `AsyncBatchNode` (lines 237-243): awaits the per-item
execute-with-retry cycle of each item in sequence, pushing results in input
order; a rejection aborts the loop. -/
def asyncBatchNodeExec {ν : Type} (maxRetries : Nat)
    (execF : Nat → ν → Except Err ν) (fb : ν → Err → Except Err ν) :
    List ν → Except Err (List (Option ν))
  | [] => .ok []
  | it :: rest => do
    let r ← asyncNodeExec maxRetries execF fb it
    let rs ← asyncBatchNodeExec maxRetries execF fb rest
    pure (r :: rs)

/-- Semantics of `Promise.all` on already-determined outcomes: fulfils with the
values in input order, or rejects with the first (in index order) rejection. -/
def promiseAll {α : Type} : List (Except Err α) → Except Err (List α)
  | [] => .ok []
  | p :: ps => do
    let v ← p
    let vs ← promiseAll ps
    pure (v :: vs)

/-- Wrapped execute of `AsyncParallelBatchNode` (lines 247-249): launches every
item's execute-with-retry cycle and joins them with `Promise.all`.  Each item's
cycle is a pure function of the item (the engine passes `exec` only the prep
result), so its outcome does not depend on the interleaving. -/
def asyncParallelBatchNodeExec {ν : Type} (maxRetries : Nat)
    (execF : Nat → ν → Except Err ν) (fb : ν → Err → Except Err ν)
    (items : List ν) : Except Err (List (Option ν)) :=
  promiseAll (items.map (asyncNodeExec maxRetries execF fb))

/-! Node objects and the flow orchestrator's heap. -/

/-- Whether a node object is a plain synchronous `Node` or an `AsyncNode`
(which overrides `_run` to throw `Use runAsync.`). -/
inductive NodeKind where
  | sync
  | async
  deriving Repr, DecidableEq

/-- Model of a node object on the heap: the mutable instance fields of
`Node` (`params`, `curRetry`), the construction-time configuration
(`maxRetries`, `waitSeconds`, successor table), the class dispatch tag, and
the task-supplied phase bodies.  Successors map labels to heap ids of the
caller-constructed graph nodes.  `prepF`/`postF` receive the bound params and
thread the shared store; `execF` receives the attempt index (the value of
`this.curRetry` at call time) and the prep result only. -/
structure NodeObj (σ ν : Type) where
  kind : NodeKind
  tag : String
  maxRetries : Nat
  waitSeconds : Nat
  params : Params ν
  curRetry : Nat
  succ : List (Label × Nat)
  prepF : Params ν → σ → ν × σ
  execF : Nat → ν → Except Err ν
  fallbackF : ν → Err → Except Err ν
  postF : Params ν → σ → ν → Option ν → Label × σ

/-- Events recorded by the orchestrator's trace: phase calls into task code,
tagged with the node object's tag. -/
inductive TEvent where
  | prepEv (tag : String)
  | execEv (tag : String) (attempt : Nat)
  | fallbackEv (tag : String)
  | postEv (tag : String) (label : Label)
  deriving Repr, DecidableEq

/-- Lift a retry-wrapper event into the orchestrator's trace. -/
def retryEventToT {ν : Type} (tag : String) : RetryEvent ν → TEvent
  | .execAttempt i => .execEv tag i
  | .fallbackCall _ _ => .fallbackEv tag

/-- Lifecycle `BaseNode._run` (lines 49-53) as specialised by `Node`:
`prep`, the `_exec` retry wrapper, then `post`.  Returns the final
`this.curRetry`, the shared store, the returned label, and the trace.
An exception from the retry wrapper propagates (post does not run). -/
def runLifecycleSync {σ ν : Type} (obj : NodeObj σ ν) (s : σ) :
    Except Err (Nat × σ × Label × List TEvent) :=
  let pr := obj.prepF obj.params s
  let r := nodeExec obj.maxRetries obj.execF obj.fallbackF pr.1
  match r.1 with
  | .error e => .error e
  | .ok execRes =>
    let po := obj.postF obj.params pr.2 pr.1 execRes
    .ok (r.2.1, po.2, po.1,
      .prepEv obj.tag :: (r.2.2.map (retryEventToT obj.tag) ++ [.postEv obj.tag po.1]))

/-- Association lookup for the heap (first binding wins; `Heap.set` prepends,
so the newest write shadows older ones). -/
def assocGet {α : Type} : List (Nat × α) → Nat → Option α
  | [], _ => none
  | (j, o) :: rest, i => if i = j then some o else assocGet rest i

/-- Heap of node objects.  Ids below `nextId` are in use; `alloc` hands out
`nextId`.  The caller-constructed graph occupies the ids present initially;
the orchestrator's per-step clones are allocated above them. -/
structure Heap (σ ν : Type) where
  objs : List (Nat × NodeObj σ ν)
  nextId : Nat

/-- Read a node object. -/
def Heap.get {σ ν : Type} (h : Heap σ ν) (i : Nat) : Option (NodeObj σ ν) :=
  assocGet h.objs i

/-- Overwrite the object at an id (models field mutation on that object). -/
def Heap.set {σ ν : Type} (h : Heap σ ν) (i : Nat) (o : NodeObj σ ν) :
    Heap σ ν :=
  ⟨(i, o) :: h.objs, h.nextId⟩

/-- Allocate a fresh object, returning the new heap and its id. -/
def Heap.alloc {σ ν : Type} (h : Heap σ ν) (o : NodeObj σ ν) :
    Heap σ ν × Nat :=
  (⟨(h.nextId, o) :: h.objs, h.nextId + 1⟩, h.nextId)

@[simp] theorem assocGet_nil {α : Type} (i : Nat) :
    assocGet ([] : List (Nat × α)) i = none := rfl

@[simp] theorem assocGet_cons {α : Type} (j : Nat) (o : α)
    (rest : List (Nat × α)) (i : Nat) :
    assocGet ((j, o) :: rest) i = if i = j then some o else assocGet rest i :=
  rfl

@[simp] theorem Heap.get_set_self {σ ν : Type} (h : Heap σ ν) (i : Nat)
    (o : NodeObj σ ν) : (h.set i o).get i = some o := by
  simp [Heap.get, Heap.set]

theorem Heap.get_set_of_ne {σ ν : Type} (h : Heap σ ν) {i j : Nat}
    (o : NodeObj σ ν) (hne : i ≠ j) : (h.set j o).get i = h.get i := by
  simp [Heap.get, Heap.set, hne]

@[simp] theorem Heap.set_nextId {σ ν : Type} (h : Heap σ ν) (i : Nat)
    (o : NodeObj σ ν) : (h.set i o).nextId = h.nextId := rfl

@[simp] theorem Heap.alloc_fst_nextId {σ ν : Type} (h : Heap σ ν)
    (o : NodeObj σ ν) : (h.alloc o).1.nextId = h.nextId + 1 := rfl

@[simp] theorem Heap.alloc_snd {σ ν : Type} (h : Heap σ ν) (o : NodeObj σ ν) :
    (h.alloc o).2 = h.nextId := rfl

@[simp] theorem Heap.get_alloc_self {σ ν : Type} (h : Heap σ ν)
    (o : NodeObj σ ν) : (h.alloc o).1.get h.nextId = some o := by
  simp [Heap.get, Heap.alloc]

theorem Heap.get_alloc_of_ne {σ ν : Type} (h : Heap σ ν) {i : Nat}
    (o : NodeObj σ ν) (hne : i ≠ h.nextId) : (h.alloc o).1.get i = h.get i := by
  simp [Heap.get, Heap.alloc, hne]

/-- Node runner used by `Flow._orch` (line 152, `curr._run(shared)`): an
`AsyncNode` overrides `_run` to throw `Use runAsync.` (lines 231-233) before
any phase runs; a synchronous node runs its lifecycle, and the mutation of
`this.curRetry` during the retry loop is written back to the node's heap slot. -/
def runNodeSyncH {σ ν : Type} (h : Heap σ ν) (id : Nat) (s : σ) :
    Except Err (Heap σ ν × σ × Label × List TEvent) :=
  match h.get id with
  | none => .error "missing node"
  | some obj =>
    match obj.kind with
    | .async => .error "Use runAsync."
    | .sync =>
      match runLifecycleSync obj s with
      | .error e => .error e
      | .ok (cur, s2, lab, tr) =>
        .ok (h.set id { obj with curRetry := cur }, s2, lab, tr)

/-- Successor lookup of `Flow.getNextNode` (lines 124-135):
`curr.successors[action || 'default']` — the empty string is falsy in JS, so
it falls back to `'default'`; a missing entry ends the traversal (with a
console warning when the table is non-empty, which has no observable effect
in the model). -/
def lookupSucc (succ : List (Label × Nat)) (action : Label) : Option Nat :=
  (succ.find? (fun pr => pr.1 = if action = "" then "default" else action)).map
    (fun pr => pr.2)

/-- Per-step shallow copy
`Object.assign(Object.create(Object.getPrototypeOf(node)), node)`
(lines 141-146 and 154-156): allocates a fresh object with the same own
fields; the successor table entries still reference the original graph ids. -/
def cloneNode {σ ν : Type} (h : Heap σ ν) (id : Nat) :
    Option (Heap σ ν × Nat) :=
  (h.get id).map (fun obj => h.alloc obj)

/-- Traversal loop of `Flow._orch` (lines 150-157), fuel-bounded since a cyclic
graph can loop forever (`none` = out of fuel).  Each iteration binds the run
parameters into the current (cloned) node, runs its full lifecycle, looks up
the successor by the returned label on the clone's (shared) table, and clones
the next original node. -/
def orchLoop {σ ν : Type} (fuel : Nat) (h : Heap σ ν) (s : σ) (p : Params ν)
    (curr : Option Nat) (lastAction : Label) (tr : List TEvent) :
    Option (Except Err (Heap σ ν × σ × Label × List TEvent)) :=
  match curr with
  | none => some (.ok (h, s, lastAction, tr))
  | some id =>
    match fuel with
    | 0 => none
    | fuel + 1 =>
      let h1 :=
        match h.get id with
        | some obj => h.set id { obj with params := p }
        | none => h
      match runNodeSyncH h1 id s with
      | .error e => some (.error e)
      | .ok (h2, s2, lab, tr2) =>
        match h2.get id with
        | none => some (.error "missing node")
        | some obj2 =>
          match lookupSucc obj2.succ lab with
          | none => orchLoop fuel h2 s2 p none lab (tr ++ tr2)
          | some nid =>
            match cloneNode h2 nid with
            | none => some (.error "missing node")
            | some hc => orchLoop fuel hc.1 s2 p (some hc.2) lab (tr ++ tr2)

/-- Orchestrator `Flow._orch` (lines 137-159): clone the start node (or
terminate at once with `'default'` when there is none), take the explicit
params argument or a copy of the flow's own params, and run the traversal
loop. -/
def orch {σ ν : Type} (fuel : Nat) (h : Heap σ ν) (startNode : Option Nat)
    (flowParams : Params ν) (paramsArg : Option (Params ν)) (s : σ) :
    Option (Except Err (Heap σ ν × σ × Label × List TEvent)) :=
  let p := paramsArg.getD flowParams
  match startNode with
  | none => some (.ok (h, s, "default", []))
  | some sid =>
    match cloneNode h sid with
    | none => some (.error "missing node")
    | some hc => orchLoop fuel hc.1 s p (some hc.2) "default" []

/-- Finalize of `Flow` (lines 167-169): returns `execRes` — the label the
orchestration produced — unchanged. -/
def flowPost {σ : Type} (_shared : σ) (execRes : Label) : Label := execRes

/-- Run of `Flow._run` (lines 161-165): `prep` (the `BaseNode` no-op default),
then `_orch` with no explicit params, then `post`, which returns the
orchestration's final label unchanged. -/
def flowRun {σ ν : Type} (fuel : Nat) (h : Heap σ ν) (startNode : Option Nat)
    (flowParams : Params ν) (s : σ) :
    Option (Except Err (Heap σ ν × σ × Label × List TEvent)) :=
  match orch fuel h startNode flowParams none s with
  | none => none
  | some (.error e) => some (.error e)
  | some (.ok (h1, s1, lab, tr)) => some (.ok (h1, s1, flowPost s1 lab, tr))

/-- Retry loop outcome when the first attempt succeeds. -/
theorem nodeExec_first_ok {ν : Type} (k : Nat) (hk : 0 < k)
    (execF : Nat → ν → Except Err ν) (fb : ν → Err → Except Err ν) (p : ν)
    (v : ν) (hs : execF 0 p = .ok v) :
    nodeExec k execF fb p = (.ok (some v), 0, [.execAttempt 0]) := by
  rw [nodeExec, nodeExecFrom, dif_pos hk, hs]

/-- Predicate picking out fallback invocations in a retry trace. -/
def isFallbackCall {ν : Type} : RetryEvent ν → Bool
  | .fallbackCall _ _ => true
  | .execAttempt _ => false

/-- C2: for a retrying Node with `maxRetries = k ≥ 1` whose execute raises on
every one of its `k` attempts, the fallback handler is invoked exactly once,
receiving the unchanged prepare result and the error of the last (`k`-th)
attempt, and the wrapped execute returns the fallback's result; the default
fallback re-raises that error; an error escaping the retry wrapper propagates
out of `_run`. -/
theorem retry_exhaustion_invokes_fallback_once {σ ν : Type} (k : Nat)
    (hk : 1 ≤ k) (execF : Nat → ν → Except Err ν)
    (fb : ν → Err → Except Err ν) (p : ν) (errs : Nat → Err)
    (hf : ∀ j, j < k → execF j p = .error (errs j)) :
    nodeExec k execF fb p =
      ((fb p (errs (k - 1))).map Option.some, k - 1,
        (List.range k).map RetryEvent.execAttempt ++
          [RetryEvent.fallbackCall p (errs (k - 1))]) ∧
    List.countP isFallbackCall
        ((List.range k).map RetryEvent.execAttempt ++
          [RetryEvent.fallbackCall p (errs (k - 1))]) = 1 ∧
    (fb = defaultFallback → (nodeExec k execF fb p).1 = .error (errs (k - 1))) ∧
    ∀ (obj : NodeObj σ ν) (s : σ) (e : Err),
      (nodeExec obj.maxRetries obj.execF obj.fallbackF
          (obj.prepF obj.params s).1).1 = .error e →
      runLifecycleSync obj s = .error e := by
  have hmain0 := nodeExecFrom_always_fails k execF fb p errs hf (k - 1) 0 (by omega)
  have hrange : List.range' 0 (k - 1 + 1) = List.range k := by
    rw [List.range_eq_range']
    congr 1
    omega
  rw [hrange] at hmain0
  have hmain : nodeExec k execF fb p =
      ((fb p (errs (k - 1))).map Option.some, k - 1,
        (List.range k).map RetryEvent.execAttempt ++
          [RetryEvent.fallbackCall p (errs (k - 1))]) := hmain0
  refine ⟨hmain, ?_, ?_, ?_⟩
  · rw [List.countP_append]
    have h0 : List.countP isFallbackCall
        ((List.range k).map (RetryEvent.execAttempt (ν := ν))) = 0 := by
      rw [List.countP_eq_zero]
      intro a ha
      simp only [List.mem_map] at ha
      obtain ⟨i, _, rfl⟩ := ha
      simp [isFallbackCall]
    rw [h0]
    simp [isFallbackCall]
  · intro hfb
    rw [hmain, hfb]
    rfl
  · intro obj s e he
    rw [runLifecycleSync]
    simp only at he ⊢
    rw [he]

/-- C3: for a retrying Node with `maxRetries = k ≥ 1` whose execute raises on
the first `k - 1` attempts and succeeds on attempt `k`, the wrapped execute
returns that successful result, the fallback handler never appears in the
trace, and the `curRetry` counter observed during the successful attempt (the
attempt index passed to `execF` in `hs`, also the final counter value) equals
`k - 1`. -/
theorem retry_success_on_last_attempt {ν : Type} (k : Nat) (hk : 1 ≤ k)
    (execF : Nat → ν → Except Err ν) (fb : ν → Err → Except Err ν) (p : ν)
    (errs : Nat → Err) (v : ν)
    (hf : ∀ j, j < k - 1 → execF j p = .error (errs j))
    (hs : execF (k - 1) p = .ok v) :
    nodeExec k execF fb p =
      (.ok (some v), k - 1, (List.range k).map RetryEvent.execAttempt) ∧
    ∀ (pr : ν) (e : Err),
      RetryEvent.fallbackCall pr e ∉
        (List.range k).map (RetryEvent.execAttempt (ν := ν)) := by
  have hmain := nodeExecFrom_fails_then_succeeds k execF fb p errs v hf hs
    (k - 1) 0 (by omega)
  have hrange : List.range' 0 (k - 1 + 1) = List.range k := by
    rw [List.range_eq_range']
    congr 1
    omega
  rw [hrange] at hmain
  refine ⟨hmain, ?_⟩
  intro pr e hmem
  simp only [List.mem_map] at hmem
  obtain ⟨i, _, hbad⟩ := hmem
  exact RetryEvent.noConfusion hbad

/-- C10: for a retrying Node constructed with `maxRetries = 0`, the retry
wrapper's loop body never runs: it returns `undefined` without invoking the
node's execute or its fallback, and `_run` completes normally, passing the
`undefined` execute result to `post`. -/
theorem zero_maxRetries_skips_exec_and_fallback {σ ν : Type}
    (execF : Nat → ν → Except Err ν) (fb : ν → Err → Except Err ν) (p : ν) :
    nodeExec 0 execF fb p = (.ok none, 0, []) ∧
    ∀ (obj : NodeObj σ ν) (s : σ), obj.maxRetries = 0 →
      runLifecycleSync obj s =
        .ok (0,
          (obj.postF obj.params (obj.prepF obj.params s).2
            (obj.prepF obj.params s).1 none).2,
          (obj.postF obj.params (obj.prepF obj.params s).2
            (obj.prepF obj.params s).1 none).1,
          [.prepEv obj.tag,
           .postEv obj.tag
             (obj.postF obj.params (obj.prepF obj.params s).2
               (obj.prepF obj.params s).1 none).1]) := by
  have hz : ∀ (q : ν), nodeExec 0 execF fb q = (.ok none, 0, []) := by
    intro q
    rw [nodeExec, nodeExecFrom]
    simp
  constructor
  · exact hz p
  · intro obj s h0
    have hz2 : nodeExec obj.maxRetries obj.execF obj.fallbackF
        (obj.prepF obj.params s).1 = (.ok none, 0, []) := by
      rw [h0, nodeExec, nodeExecFrom]
      simp
    rw [runLifecycleSync]
    simp only [hz2]
    simp

/-- C5: for a batched Task and any input sequence, the wrapped execute applies
the single-item execute-with-retry logic to each item independently and
returns a result sequence of the same length whose `j`-th element is the
result (or per-item fallback result) for the `j`-th item, in input order,
with the per-item retry traces concatenated in the same order. -/
theorem batch_exec_preserves_order_independent {ν : Type} (maxRetries : Nat)
    (execF : Nat → ν → Except Err ν) (fb : ν → Err → Except Err ν)
    (items : List ν) (f : ν → Option ν)
    (hok : ∀ it ∈ items, (nodeExec maxRetries execF fb it).1 = .ok (f it)) :
    (batchExec maxRetries execF fb items).1 = .ok (items.map f) ∧
    (batchExec maxRetries execF fb items).2 =
      (items.map (fun it => (nodeExec maxRetries execF fb it).2.2)).flatten ∧
    (items.map f).length = items.length := by
  have key : ∀ (l : List ν),
      (∀ it ∈ l, (nodeExec maxRetries execF fb it).1 = .ok (f it)) →
      (batchExec maxRetries execF fb l).1 = .ok (l.map f) ∧
      (batchExec maxRetries execF fb l).2 =
        (l.map (fun it => (nodeExec maxRetries execF fb it).2.2)).flatten := by
    intro l
    induction l with
    | nil => intro _; exact ⟨rfl, rfl⟩
    | cons it rest ih =>
      intro hl
      have hit := hl it (by simp)
      obtain ⟨ih1, ih2⟩ := ih (fun x hx => hl x (by simp [hx]))
      constructor
      · simp [batchExec, hit, ih1, Except.map]
      · simp [batchExec, hit, ih2]
  exact ⟨(key items hok).1, (key items hok).2, by simp⟩

/-- C8: the parallel batched suspendable task's wrapped execute produces
exactly the same result sequence (same length, same per-index results in
input order) as the sequential batched suspendable task's over the same items
and the same per-item execute-with-retry configuration. -/
theorem parallel_batch_exec_eq_sequential {ν : Type} (maxRetries : Nat)
    (execF : Nat → ν → Except Err ν) (fb : ν → Err → Except Err ν)
    (items : List ν) :
    asyncParallelBatchNodeExec maxRetries execF fb items =
      asyncBatchNodeExec maxRetries execF fb items := by
  induction items with
  | nil => rfl
  | cons it rest ih =>
    simp only [asyncParallelBatchNodeExec, List.map_cons, promiseAll,
      asyncBatchNodeExec]
    rw [← asyncParallelBatchNodeExec, ih]

/-- Witness for C2 at `k = 2`: an execute that always raises `boom` and a
fallback returning the sentinel `42`. -/
theorem retry_exhaustion_invokes_fallback_once_witness :
    nodeExec 2 (fun _ _ => (Except.error "boom" : Except Err Nat))
        (fun _ _ => Except.ok 42) 7 =
      (.ok (some 42), 1,
        [.execAttempt 0, .execAttempt 1, .fallbackCall 7 "boom"]) :=
  (retry_exhaustion_invokes_fallback_once (σ := Nat) 2 (by decide)
    (fun _ _ => Except.error "boom") (fun _ _ => Except.ok 42) 7
    (fun _ => "boom") (fun _ _ => rfl)).1

/-- Witness for C3 at `k = 3`: attempts 0 and 1 raise, attempt 2 succeeds. -/
theorem retry_success_on_last_attempt_witness :
    nodeExec 3
        (fun i v => if i = 2 then Except.ok (v + 1)
          else (Except.error (toString i) : Except Err Nat))
        (fun _ e => Except.error e) 5 =
      (.ok (some 6), 2, [.execAttempt 0, .execAttempt 1, .execAttempt 2]) :=
  (retry_success_on_last_attempt 3 (by decide)
    (fun i v => if i = 2 then Except.ok (v + 1) else Except.error (toString i))
    (fun _ e => Except.error e) 5 (fun i => toString i) 6
    (fun j hj => if_neg (by omega)) (by simp)).1

/-- Concrete zero-retry node used by the C10 witness. -/
def zeroRetryNode : NodeObj Nat Nat :=
  ⟨.sync, "n", 0, 0, [], 0, [], fun _ s => (s, s), fun _ v => .ok v,
    fun _ e => .error e, fun _ s _ _ => ("done", s + 1)⟩

/-- Witness for C10: the zero-retry node's `_run` completes normally, with
`undefined` execute result and neither exec nor fallback called. -/
theorem zero_maxRetries_skips_exec_and_fallback_witness :
    runLifecycleSync zeroRetryNode 5 =
      .ok (0, 6, "done", [.prepEv "n", .postEv "n" "done"]) :=
  (zero_maxRetries_skips_exec_and_fallback (σ := Nat) (ν := Nat)
    (fun _ v => .ok v) (fun _ e => .error e) 0).2 zeroRetryNode 5 rfl

/-- Witness for C5: three items, the middle one exhausting its retries and
recovering through its fallback sentinel `0`, without aborting later items. -/
theorem batch_exec_preserves_order_independent_witness :
    (batchExec 1
        (fun _ v => if v = 0 then Except.error "z" else Except.ok (v * 2))
        (fun _ _ => (Except.ok 0 : Except Err Nat)) [1, 0, 3]).1 =
      .ok [some 2, some 0, some 6] := by
  refine (batch_exec_preserves_order_independent 1
    (fun _ v => if v = 0 then Except.error "z" else Except.ok (v * 2))
    (fun _ _ => (Except.ok 0 : Except Err Nat)) [1, 0, 3]
    (fun v => some (if v = 0 then 0 else v * 2)) ?_).1
  intro it hit
  fin_cases hit <;> simp [nodeExec, nodeExecFrom, Except.map]

/-- Unfolding of one traversal step of `Flow._orch` on a synchronous current
node: bind params, run the lifecycle, write back `curRetry`, look up the
successor, clone it. -/
theorem orchLoop_step {σ ν : Type} (fuel : Nat) (h : Heap σ ν) (s : σ)
    (p : Params ν) (id : Nat) (last : Label) (tr : List TEvent)
    (obj : NodeObj σ ν) (hget : h.get id = some obj) (hk : obj.kind = .sync) :
    orchLoop (fuel + 1) h s p (some id) last tr =
      match runLifecycleSync { obj with params := p } s with
      | .error e => some (.error e)
      | .ok (cur, s2, lab, tr2) =>
        let h2 := (h.set id { obj with params := p }).set id
          { obj with params := p, curRetry := cur }
        match lookupSucc obj.succ lab with
        | none => some (.ok (h2, s2, lab, tr ++ tr2))
        | some nid =>
          match h2.get nid with
          | none => some (.error "missing node")
          | some objN =>
            orchLoop fuel (h2.alloc objN).1 s2 p (some (h2.alloc objN).2) lab
              (tr ++ tr2) := by
  obtain ⟨kd, tg, mr, ws, pa, cr, su, prF, exF, fbF, poF⟩ := obj
  replace hk : kd = NodeKind.sync := hk
  subst hk
  rw [orchLoop]
  simp only [hget, runNodeSyncH, Heap.get_set_self]
  cases hrl : runLifecycleSync
      ⟨NodeKind.sync, tg, mr, ws, p, cr, su, prF, exF, fbF, poF⟩ s with
  | error e => rfl
  | ok out =>
    obtain ⟨cur, s2, lab, tr2⟩ := out
    simp only [Heap.get_set_self, cloneNode]
    cases hsucc : lookupSucc su lab with
    | none => simp only [orchLoop]
    | some nid =>
      simp only []
      cases hn : ((h.set id ⟨NodeKind.sync, tg, mr, ws, p, cr, su, prF, exF, fbF, poF⟩).set id
          ⟨NodeKind.sync, tg, mr, ws, p, cur, su, prF, exF, fbF, poF⟩).get nid with
      | none => rfl
      | some objN => rfl

/-- Lifecycle outcome of a synchronous node with `maxRetries = 1` whose
execute succeeds at once. -/
theorem runLifecycleSync_simple {σ ν : Type} (obj : NodeObj σ ν) (s : σ)
    (fE : ν → ν) (h1 : obj.maxRetries = 1)
    (he : ∀ v, obj.execF 0 v = .ok (fE v)) :
    runLifecycleSync obj s =
      .ok (0,
        (obj.postF obj.params (obj.prepF obj.params s).2
          (obj.prepF obj.params s).1
          (some (fE (obj.prepF obj.params s).1))).2,
        (obj.postF obj.params (obj.prepF obj.params s).2
          (obj.prepF obj.params s).1
          (some (fE (obj.prepF obj.params s).1))).1,
        [.prepEv obj.tag, .execEv obj.tag 0,
         .postEv obj.tag
           ((obj.postF obj.params (obj.prepF obj.params s).2
             (obj.prepF obj.params s).1
             (some (fE (obj.prepF obj.params s).1))).1)]) := by
  rw [runLifecycleSync]
  have hne : nodeExec obj.maxRetries obj.execF obj.fallbackF
      (obj.prepF obj.params s).1 =
      (.ok (some (fE (obj.prepF obj.params s).1)), 0, [.execAttempt 0]) := by
    rw [h1]
    exact nodeExec_first_ok 1 (by decide) _ _ _ _ (he _)
  simp only [hne]
  simp [retryEventToT]

/-- C4: for a flow traversal in which the current node's finalize returns a
label with no entry in that node's successor table, the traversal terminates
after that node without raising, and the flow's final returned label is
exactly that unmatched label. -/
theorem flow_unmatched_label_ends_traversal {σ ν : Type} (fuel : Nat)
    (h : Heap σ ν) (aId : Nat) (A : NodeObj σ ν) (p : Params ν) (s : σ)
    (fA : ν → ν) (y : Label)
    (hA : h.get aId = some A) (hAk : A.kind = .sync) (hAr : A.maxRetries = 1)
    (hAe : ∀ v, A.execF 0 v = .ok (fA v))
    (hApost : ∀ q s2 pr er, (A.postF q s2 pr er).1 = y)
    (hy : lookupSucc A.succ y = none)
    (hfuel : 1 ≤ fuel) :
    ∃ hOut, flowRun fuel h (some aId) p s =
      some (.ok (hOut,
        (A.postF p (A.prepF p s).2 (A.prepF p s).1
          (some (fA (A.prepF p s).1))).2,
        y,
        [.prepEv A.tag, .execEv A.tag 0, .postEv A.tag y])) := by
  obtain ⟨f, rfl⟩ : ∃ f, fuel = f + 1 := ⟨fuel - 1, by omega⟩
  rw [flowRun, orch]
  simp only [cloneNode, hA, Option.map_some', Option.getD]
  have hget : (h.alloc A).1.get (h.alloc A).2 = some A := by
    simp
  rw [orchLoop_step f (h.alloc A).1 s p (h.alloc A).2 "default" [] A hget hAk]
  have hrl := runLifecycleSync_simple { A with params := p } s fA hAr hAe
  rw [hrl]
  simp only [hApost, hy]
  exact ⟨_, rfl⟩

/-- C1: for a Flow whose start node `A` has node `B` registered as successor
under label `"x"` and whose `A` finalize always returns `"x"` (and `B` has no
successors), `run` executes `A`'s full prepare/execute/finalize lifecycle,
then `B`'s, in that order, and the Flow's own finalize returns the last label
produced during the traversal — here the label produced by `B`'s finalize. -/
theorem flow_runs_successor_and_returns_last_label {σ ν : Type} (fuel : Nat)
    (h : Heap σ ν) (aId bId : Nat) (A B : NodeObj σ ν) (p : Params ν) (s : σ)
    (fA fB : ν → ν)
    (hA : h.get aId = some A) (hB : h.get bId = some B)
    (hAk : A.kind = .sync) (hBk : B.kind = .sync)
    (hAr : A.maxRetries = 1) (hBr : B.maxRetries = 1)
    (hAe : ∀ v, A.execF 0 v = .ok (fA v))
    (hBe : ∀ v, B.execF 0 v = .ok (fB v))
    (hApost : ∀ q s2 pr er, (A.postF q s2 pr er).1 = "x")
    (hAsucc : A.succ = [("x", bId)])
    (hBsucc : B.succ = [])
    (hbLt : bId < h.nextId)
    (hfuel : 2 ≤ fuel) :
    ∃ hOut,
      flowRun fuel h (some aId) p s =
        (let pA := (A.prepF p s).1
         let sA := (A.prepF p s).2
         let poA := A.postF p sA pA (some (fA pA))
         let pB := (B.prepF p poA.2).1
         let sB := (B.prepF p poA.2).2
         let poB := B.postF p sB pB (some (fB pB))
         some (.ok (hOut, poB.2, poB.1,
           [.prepEv A.tag, .execEv A.tag 0, .postEv A.tag "x",
            .prepEv B.tag, .execEv B.tag 0, .postEv B.tag poB.1]))) := by
  obtain ⟨f, rfl⟩ : ∃ f, fuel = f + 2 := ⟨fuel - 2, by omega⟩
  rw [flowRun, orch]
  simp only [cloneNode, hA, Option.map_some', Option.getD]
  have hget1 : (h.alloc A).1.get (h.alloc A).2 = some A := by simp
  have hfe : f + 2 = (f + 1) + 1 := rfl
  rw [hfe, orchLoop_step (f + 1) (h.alloc A).1 s p (h.alloc A).2 "default" []
    A hget1 hAk]
  rw [runLifecycleSync_simple { A with params := p } s fA hAr hAe]
  simp only [hApost]
  have hlk : lookupSucc A.succ "x" = some bId := by
    rw [hAsucc]
    simp [lookupSucc]
  have hgetB : (((h.alloc A).1.set h.nextId { A with params := p }).set
      h.nextId { A with params := p, curRetry := 0 }).get bId = some B := by
    rw [Heap.get_set_of_ne _ _ (by omega), Heap.get_set_of_ne _ _ (by omega),
      Heap.get_alloc_of_ne _ _ (by omega)]
    exact hB
  simp only [Heap.alloc_snd, hlk, hgetB]
  rw [orchLoop_step f _ _ p _ "x" _ B (Heap.get_alloc_self _ _) hBk]
  rw [runLifecycleSync_simple { B with params := p } _ fB hBr hBe]
  have hlkB : ∀ lab, lookupSucc B.succ lab = none := by
    intro lab
    rw [hBsucc]
    rfl
  simp only [hlkB]
  exact ⟨_, rfl⟩

/-- C9: invoking the blocking synchronous run path on a suspendable (async)
node — directly, or by placing it as the start node of a plain synchronous
Flow, whose orchestrator calls the node's synchronous lifecycle — throws
`Use runAsync.` instead of executing any of the node's three phases. -/
theorem async_node_sync_run_throws {σ ν : Type} (fuel : Nat) (h : Heap σ ν)
    (aId : Nat) (A : NodeObj σ ν) (p : Params ν) (pa : Option (Params ν))
    (s : σ) (hA : h.get aId = some A) (hAk : A.kind = .async)
    (hfuel : 1 ≤ fuel) :
    runNodeSyncH h aId s = .error "Use runAsync." ∧
    orch fuel h (some aId) p pa s = some (.error "Use runAsync.") := by
  constructor
  · rw [runNodeSyncH]
    simp only [hA, hAk]
  · obtain ⟨f, rfl⟩ : ∃ f, fuel = f + 1 := ⟨fuel - 1, by omega⟩
    rw [orch]
    simp only [cloneNode, hA, Option.map_some']
    rw [orchLoop]
    simp only [Heap.alloc_snd, Heap.get_alloc_self, runNodeSyncH,
      Heap.get_set_self, hAk]

/-- Concrete two-node graph for the C1 witness: `A` (id 0) chains to `B`
(id 1) on label `x`. -/
def wNodeA : NodeObj Nat Nat :=
  ⟨.sync, "A", 1, 0, [], 0, [("x", 1)], fun _ s => (s, s),
    fun _ v => .ok (v + 10), fun _ e => .error e, fun _ s _ _ => ("x", s + 1)⟩

/-- Concrete terminal node for the C1 witness. -/
def wNodeB : NodeObj Nat Nat :=
  ⟨.sync, "B", 1, 0, [], 0, [], fun _ s => (s, s), fun _ v => .ok (v * 2),
    fun _ e => .error e, fun _ s _ _ => ("done", s + 100)⟩

/-- Concrete heap holding the C1 witness graph. -/
def wHeapAB : Heap Nat Nat := ⟨[(0, wNodeA), (1, wNodeB)], 2⟩

/-- Witness for C1: running the two-node flow from shared state 5 executes
`A` then `B` and returns `B`'s label `done`. -/
theorem flow_runs_successor_and_returns_last_label_witness :
    ∃ hOut, flowRun 2 wHeapAB (some 0) [] 5 =
      some (.ok (hOut, 106, "done",
        [.prepEv "A", .execEv "A" 0, .postEv "A" "x",
         .prepEv "B", .execEv "B" 0, .postEv "B" "done"])) :=
  flow_runs_successor_and_returns_last_label 2 wHeapAB 0 1 wNodeA wNodeB [] 5
    (fun v => v + 10) (fun v => v * 2) rfl rfl rfl rfl rfl rfl
    (fun _ => rfl) (fun _ => rfl) (fun _ _ _ _ => rfl) rfl rfl
    (by decide) (by decide)

/-- Concrete single node whose finalize label `stop` has no successor entry,
for the C4 witness. -/
def wNodeStop : NodeObj Nat Nat :=
  ⟨.sync, "A", 1, 0, [], 0, [("ok", 0)], fun _ s => (s, s),
    fun _ v => .ok (v + 1), fun _ e => .error e, fun _ s _ _ => ("stop", s + 7)⟩

/-- Concrete heap for the C4 witness. -/
def wHeapStop : Heap Nat Nat := ⟨[(0, wNodeStop)], 1⟩

/-- Witness for C4: the unmatched label `stop` ends the traversal after the
single node and becomes the flow's final label. -/
theorem flow_unmatched_label_ends_traversal_witness :
    ∃ hOut, flowRun 1 wHeapStop (some 0) [] 5 =
      some (.ok (hOut, 12, "stop",
        [.prepEv "A", .execEv "A" 0, .postEv "A" "stop"])) :=
  flow_unmatched_label_ends_traversal 1 wHeapStop 0 wNodeStop [] 5
    (fun v => v + 1) "stop" rfl rfl rfl (fun _ => rfl) (fun _ _ _ _ => rfl)
    (by decide) (by decide)

/-- Concrete async node for the C9 witness. -/
def wNodeAsync : NodeObj Nat Nat :=
  ⟨.async, "A", 1, 0, [], 0, [], fun _ s => (s, s), fun _ v => .ok v,
    fun _ e => .error e, fun _ s _ _ => ("done", s)⟩

/-- Concrete heap for the C9 witness. -/
def wHeapAsync : Heap Nat Nat := ⟨[(0, wNodeAsync)], 1⟩

/-- Witness for C9: both the direct synchronous run path and a synchronous
flow traversal over the async node throw `Use runAsync.`. -/
theorem async_node_sync_run_throws_witness :
    runNodeSyncH wHeapAsync 0 5 = .error "Use runAsync." ∧
    orch 1 wHeapAsync (some 0) [] none 5 =
      some (.error "Use runAsync.") :=
  async_node_sync_run_throws 1 wHeapAsync 0 wNodeAsync [] none 5 rfl rfl
    (by decide)

/-- Closure of a heap's graph below a bound: every node stored below `n` has
all its successor ids below `n` (true of any caller-constructed graph, whose
successor tables reference only caller-constructed nodes). -/
def graphClosed {σ ν : Type} (h : Heap σ ν) (n : Nat) : Prop :=
  ∀ i, i < n → ∀ o : NodeObj σ ν, h.get i = some o → ∀ pr ∈ o.succ, pr.2 < n

/-- Terminal equation of the traversal loop. -/
theorem orchLoop_none {σ ν : Type} (fuel : Nat) (h : Heap σ ν) (s : σ)
    (p : Params ν) (last : Label) (tr : List TEvent) :
    orchLoop fuel h s p none last tr = some (.ok (h, s, last, tr)) := by
  rw [orchLoop]

/-- Running one node touches only that node's heap slot and allocates
nothing. -/
theorem runNodeSyncH_frame {σ ν : Type} (h : Heap σ ν) (id : Nat) (s : σ)
    (h2 : Heap σ ν) (s2 : σ) (lab : Label) (tr : List TEvent)
    (hrun : runNodeSyncH h id s = .ok (h2, s2, lab, tr)) :
    (∀ i, i ≠ id → h2.get i = h.get i) ∧ h2.nextId = h.nextId := by
  rw [runNodeSyncH] at hrun
  cases hg : h.get id with
  | none => simp [hg] at hrun
  | some obj =>
    simp only [hg] at hrun
    cases hk : obj.kind with
    | async => simp [hk] at hrun
    | sync =>
      simp only [hk] at hrun
      cases hrl : runLifecycleSync obj s with
      | error e => simp [hrl] at hrun
      | ok out =>
        obtain ⟨cur, s3, lab3, tr3⟩ := out
        simp only [hrl] at hrun
        obtain ⟨hh, _, _, _⟩ :
            h.set id { obj with kind := NodeKind.sync, curRetry := cur } = h2 ∧
              s3 = s2 ∧ lab3 = lab ∧ tr3 = tr := by simpa using hrun
        subst hh
        exact ⟨fun i hi => Heap.get_set_of_ne _ _ hi, rfl⟩

/-- Frame property of the traversal loop: when the current node id (and hence
every clone allocated later) lies at or above `n ≤ nextId`, a successful
orchestration leaves every heap slot below `n` untouched and never shrinks
`nextId` below `n`. -/
theorem orchLoop_frame {σ ν : Type} (n : Nat) :
    ∀ (fuel : Nat) (h : Heap σ ν) (s : σ) (p : Params ν) (curr : Option Nat)
      (last : Label) (tr : List TEvent) (h1 : Heap σ ν) (s1 : σ) (l1 : Label)
      (tr1 : List TEvent),
      n ≤ h.nextId → (∀ c, curr = some c → n ≤ c) →
      orchLoop fuel h s p curr last tr = some (.ok (h1, s1, l1, tr1)) →
      (∀ i, i < n → h1.get i = h.get i) ∧ n ≤ h1.nextId := by
  intro fuel
  induction fuel with
  | zero =>
    intro h s p curr last tr h1 s1 l1 tr1 hn hcurr hrun
    cases curr with
    | none =>
      rw [orchLoop_none] at hrun
      obtain ⟨hh, _, _, _⟩ : h = h1 ∧ s = s1 ∧ last = l1 ∧ tr = tr1 := by
        simpa using hrun
      subst hh
      exact ⟨fun i _ => rfl, hn⟩
    | some c => simp [orchLoop] at hrun
  | succ f ih =>
    intro h s p curr last tr h1 s1 l1 tr1 hn hcurr hrun
    cases curr with
    | none =>
      rw [orchLoop_none] at hrun
      obtain ⟨hh, _, _, _⟩ : h = h1 ∧ s = s1 ∧ last = l1 ∧ tr = tr1 := by
        simpa using hrun
      subst hh
      exact ⟨fun i _ => rfl, hn⟩
    | some c =>
      have hc : n ≤ c := hcurr c rfl
      rw [orchLoop] at hrun
      cases hg : h.get c with
      | none =>
        simp only [hg] at hrun
        rw [show runNodeSyncH h c s = .error "missing node" by
          rw [runNodeSyncH, hg]] at hrun
        simp at hrun
      | some obj =>
        simp only [hg] at hrun
        set hset := h.set c { obj with params := p } with hhset
        have hsetn : hset.nextId = h.nextId := rfl
        have hsetg : ∀ i, i < n → hset.get i = h.get i := fun i hi =>
          Heap.get_set_of_ne _ _ (by omega)
        cases hrn : runNodeSyncH hset c s with
        | error e => simp [hrn] at hrun
        | ok out =>
          obtain ⟨h2, s2, lab, tr2⟩ := out
          obtain ⟨h2g, h2n⟩ := runNodeSyncH_frame hset c s h2 s2 lab tr2 hrn
          have h2gn : ∀ i, i < n → h2.get i = h.get i := fun i hi => by
            rw [h2g i (by omega), hsetg i hi]
          have h2nn : h2.nextId = h.nextId := by rw [h2n, hsetn]
          simp only [hrn] at hrun
          cases hg2 : h2.get c with
          | none => simp [hg2] at hrun
          | some obj2 =>
            simp only [hg2] at hrun
            cases hls : lookupSucc obj2.succ lab with
            | none =>
              simp only [hls] at hrun
              rw [orchLoop_none] at hrun
              obtain ⟨hh, _, _, _⟩ : h2 = h1 ∧ s2 = s1 ∧ lab = l1 ∧
                  tr ++ tr2 = tr1 := by simpa using hrun
              subst hh
              exact ⟨h2gn, by omega⟩
            | some nid =>
              simp only [hls, cloneNode] at hrun
              cases hg3 : h2.get nid with
              | none => simp [hg3] at hrun
              | some objN =>
                simp only [hg3, Option.map_some'] at hrun
                have := ih (h2.alloc objN).1 s2 p (some (h2.alloc objN).2) lab
                  (tr ++ tr2) h1 s1 l1 tr1 (by simp; omega)
                  (fun c2 hc2 => by
                    simp only [Heap.alloc_snd] at hc2 ⊢
                    cases hc2
                    omega) hrun
                obtain ⟨hag, hnx⟩ := this
                refine ⟨fun i hi => ?_, hnx⟩
                rw [hag i hi, Heap.get_alloc_of_ne _ _ (by omega), h2gn i hi]

/-- Observable part of an orchestration outcome: shared state, final label and
trace — the final heap holds only the discarded per-step clones. -/
def obsOf {σ ν : Type} :
    Option (Except Err (Heap σ ν × σ × Label × List TEvent)) →
    Option (Except Err (σ × Label × List TEvent))
  | none => none
  | some (.error e) => some (.error e)
  | some (.ok (_, s, l, tr)) => some (.ok (s, l, tr))

/-- Body of the node runner, exposed for rewriting. -/
theorem runNodeSyncH_eq {σ ν : Type} (h : Heap σ ν) (id : Nat) (s : σ)
    (o : NodeObj σ ν) (hg : h.get id = some o) :
    runNodeSyncH h id s =
      (match o.kind with
       | .async => .error "Use runAsync."
       | .sync =>
         match runLifecycleSync o s with
         | .error e => .error e
         | .ok (cur, s2, lab, tr) =>
           .ok (h.set id { o with curRetry := cur }, s2, lab, tr)) := by
  rw [runNodeSyncH, hg]

/-- Traversal step on an async current node: the synchronous orchestrator
calls its `_run`, which throws before any phase runs. -/
theorem orchLoop_step_async {σ ν : Type} (fuel : Nat) (h : Heap σ ν) (s : σ)
    (p : Params ν) (id : Nat) (last : Label) (tr : List TEvent)
    (o : NodeObj σ ν) (hg : h.get id = some o) (hk : o.kind = .async) :
    orchLoop (fuel + 1) h s p (some id) last tr =
      some (.error "Use runAsync.") := by
  rw [orchLoop]
  simp only [hg]
  rw [runNodeSyncH_eq (h.set id { o with params := p }) id s
    { o with params := p } (Heap.get_set_self _ _ _)]
  simp only [hk]

/-- Successor id returned by a lookup is bounded by the table's bound. -/
theorem lookupSucc_lt {σ ν : Type} (n : Nat) (o : NodeObj σ ν) (a : Label)
    (nid : Nat) (hf : lookupSucc o.succ a = some nid)
    (hcl : ∀ pr ∈ o.succ, pr.2 < n) : nid < n := by
  rw [lookupSucc] at hf
  cases hfind : o.succ.find?
      (fun pr => pr.1 = if a = "" then "default" else a) with
  | none => simp [hfind] at hf
  | some pr =>
    have hmem := List.mem_of_find?_eq_some hfind
    rw [hfind] at hf
    simp only [Option.map_some'] at hf
    cases hf
    exact hcl pr hmem

/-- Bisimulation of the traversal loop: two heaps agreeing on the (closed)
caller-constructed graph below `n`, whose current clones hold the same node
object at possibly different fresh ids, produce the same observable outcome —
the per-step clones' identities never influence shared state, label or
trace. -/
theorem orchLoop_obs_congr {σ ν : Type} (n : Nat) :
    ∀ (fuel : Nat) (ha hb : Heap σ ν) (s : σ) (p : Params ν)
      (ca cb : Option Nat) (last : Label) (tr : List TEvent),
      n ≤ ha.nextId → n ≤ hb.nextId →
      (∀ i, i < n → ha.get i = hb.get i) →
      graphClosed ha n →
      ((ca = none ∧ cb = none) ∨
        (∃ c c2 o, ca = some c ∧ cb = some c2 ∧ n ≤ c ∧ n ≤ c2 ∧
          ha.get c = some o ∧ hb.get c2 = some o ∧ ∀ pr ∈ o.succ, pr.2 < n)) →
      obsOf (orchLoop fuel ha s p ca last tr) =
        obsOf (orchLoop fuel hb s p cb last tr) := by
  intro fuel
  induction fuel with
  | zero =>
    intro ha hb s p ca cb last tr hna hnb hag hcl hrel
    rcases hrel with ⟨rfl, rfl⟩ | ⟨c, c2, o, rfl, rfl, _, _, _, _, _⟩
    · rw [orchLoop_none, orchLoop_none]
      rfl
    · rw [show orchLoop 0 ha s p (some c) last tr = none by rw [orchLoop],
        show orchLoop 0 hb s p (some c2) last tr = none by rw [orchLoop]]
  | succ f ih =>
    intro ha hb s p ca cb last tr hna hnb hag hcl hrel
    rcases hrel with ⟨rfl, rfl⟩ | ⟨c, c2, o, rfl, rfl, hnc, hnc2, hgc, hgc2, hso⟩
    · rw [orchLoop_none, orchLoop_none]
      rfl
    · cases hk : o.kind with
      | async =>
        rw [orchLoop_step_async f ha s p c last tr o hgc hk,
          orchLoop_step_async f hb s p c2 last tr o hgc2 hk]
      | sync =>
        rw [orchLoop_step f ha s p c last tr o hgc hk,
          orchLoop_step f hb s p c2 last tr o hgc2 hk]
        cases hrl : runLifecycleSync { o with params := p } s with
        | error e => rfl
        | ok out =>
          obtain ⟨cur, s2, lab, tr2⟩ := out
          simp only []
          cases hls : lookupSucc o.succ lab with
          | none => rfl
          | some nid =>
            simp only []
            have hnid : nid < n := lookupSucc_lt n o lab nid hls hso
            have hgani : ((ha.set c { o with params := p }).set c
                { o with params := p, curRetry := cur }).get nid = ha.get nid := by
              rw [Heap.get_set_of_ne _ _ (by omega),
                Heap.get_set_of_ne _ _ (by omega)]
            have hgbni : ((hb.set c2 { o with params := p }).set c2
                { o with params := p, curRetry := cur }).get nid = hb.get nid := by
              rw [Heap.get_set_of_ne _ _ (by omega),
                Heap.get_set_of_ne _ _ (by omega)]
            rw [hgani, hgbni, hag nid hnid]
            cases hgn : hb.get nid with
            | none => rfl
            | some oN =>
              simp only []
              apply ih
              · simp
                omega
              · simp
                omega
              · intro i hi
                rw [Heap.get_alloc_of_ne _ _ (by simp; omega),
                  Heap.get_alloc_of_ne _ _ (by simp; omega),
                  Heap.get_set_of_ne _ _ (by omega),
                  Heap.get_set_of_ne _ _ (by omega),
                  Heap.get_set_of_ne _ _ (by omega),
                  Heap.get_set_of_ne _ _ (by omega)]
                exact hag i hi
              · intro i hi o2 hgo2 pr hpr
                refine hcl i hi o2 ?_ pr hpr
                rw [Heap.get_alloc_of_ne _ _ (by simp; omega),
                  Heap.get_set_of_ne _ _ (by omega),
                  Heap.get_set_of_ne _ _ (by omega)] at hgo2
                exact hgo2
              · refine Or.inr ⟨_, _, oN, rfl, rfl, ?_, ?_, ?_, ?_, ?_⟩
                · simp
                  omega
                · simp
                  omega
                · rw [Heap.alloc_snd]
                  exact Heap.get_alloc_self _ _
                · rw [Heap.alloc_snd]
                  exact Heap.get_alloc_self _ _
                · have hga : ha.get nid = some oN := by
                    rw [hag nid hnid]
                    exact hgn
                  exact hcl nid hnid oN hga

/-- C7: each traversal step operates on a fresh shallow copy of the node
(sharing the successor table), so running a Flow leaves the run-parameter
bindings and retry counters of the caller-constructed graph nodes unchanged;
consequently re-running the same Flow on the resulting heap with a fresh
(equal) shared context produces the identical shared state, final label and
trace — the second execution observes nothing left by the first. -/
theorem flow_clone_isolation {σ ν : Type} (fuel : Nat) (h : Heap σ ν)
    (sid : Nat) (ps : Params ν) (pa : Option (Params ν)) (s : σ)
    (h1 : Heap σ ν) (s1 : σ) (l1 : Label) (tr1 : List TEvent)
    (hsid : sid < h.nextId)
    (hcl : graphClosed h h.nextId)
    (hrun : orch fuel h (some sid) ps pa s = some (.ok (h1, s1, l1, tr1))) :
    (∀ i, i < h.nextId → h1.get i = h.get i) ∧
    ∃ h2, orch fuel h1 (some sid) ps pa s = some (.ok (h2, s1, l1, tr1)) := by
  rw [orch] at hrun
  cases hg : h.get sid with
  | none => simp [cloneNode, hg] at hrun
  | some A =>
    simp only [cloneNode, hg, Option.map_some'] at hrun
    have hframe := orchLoop_frame h.nextId fuel (h.alloc A).1 s
      ((pa.getD ps)) (some (h.alloc A).2) "default" [] h1 s1 l1 tr1
      (by simp) (fun c hc => by
        rw [Heap.alloc_snd] at hc
        cases hc
        omega) hrun
    have part1 : ∀ i, i < h.nextId → h1.get i = h.get i := fun i hi => by
      rw [hframe.1 i hi, Heap.get_alloc_of_ne _ _ (by omega)]
    refine ⟨part1, ?_⟩
    rw [orch]
    have hg1 : h1.get sid = some A := by rw [part1 sid hsid, hg]
    simp only [cloneNode, hg1, Option.map_some']
    have hobs := orchLoop_obs_congr h.nextId fuel (h.alloc A).1
      (h1.alloc A).1 s (pa.getD ps) (some (h.alloc A).2)
      (some (h1.alloc A).2) "default" []
      (by simp)
      (by simp
          omega)
      (fun i hi => by
        rw [Heap.get_alloc_of_ne _ _ (by omega),
          Heap.get_alloc_of_ne _ _ (by omega), part1 i hi])
      (fun i hi o hgo pr hpr => by
        rw [Heap.get_alloc_of_ne _ _ (by omega)] at hgo
        exact hcl i hi o hgo pr hpr)
      (Or.inr ⟨(h.alloc A).2, (h1.alloc A).2, A, rfl, rfl,
        by simp,
        by simp
           omega,
        by rw [Heap.alloc_snd]
           exact Heap.get_alloc_self _ _,
        by rw [Heap.alloc_snd]
           exact Heap.get_alloc_self _ _,
        hcl sid hsid A hg⟩)
    rw [hrun] at hobs
    cases hr2 : orchLoop fuel (h1.alloc A).1 s (pa.getD ps)
        (some (h1.alloc A).2) "default" [] with
    | none => rw [hr2] at hobs; simp [obsOf] at hobs
    | some r =>
      cases r with
      | error e => rw [hr2] at hobs; simp [obsOf] at hobs
      | ok out =>
        obtain ⟨h2, s2, l2, t2⟩ := out
        rw [hr2] at hobs
        simp only [obsOf] at hobs
        obtain ⟨hs, hl, ht⟩ : s1 = s2 ∧ l1 = l2 ∧ tr1 = t2 := by
          simpa using hobs
        subst hs
        subst hl
        subst ht
        exact ⟨h2, rfl⟩

/-- Concrete single-node graph for the C7 witness. -/
def wNodeIso : NodeObj Nat Nat :=
  ⟨.sync, "I", 1, 0, [], 0, [], fun _ s => (s, s), fun _ v => .ok (v + 1),
    fun _ e => .error e, fun _ s _ _ => ("end", s + 1)⟩

/-- Concrete heap for the C7 witness. -/
def wHeapIso : Heap Nat Nat := ⟨[(0, wNodeIso)], 1⟩

/-- Witness for C7: after one run of the single-node flow, the original graph
slot is unchanged and a second run from the produced heap yields the identical
shared state, label and trace. -/
theorem flow_clone_isolation_witness :
    ∃ h1 : Heap Nat Nat,
      orch 1 wHeapIso (some 0) [] none 5 =
        some (.ok (h1, 6, "end",
          [.prepEv "I", .execEv "I" 0, .postEv "I" "end"])) ∧
      (∀ i, i < wHeapIso.nextId → h1.get i = wHeapIso.get i) ∧
      ∃ h2, orch 1 h1 (some 0) [] none 5 =
        some (.ok (h2, 6, "end",
          [.prepEv "I", .execEv "I" 0, .postEv "I" "end"])) := by
  have hrun : ∃ h1 : Heap Nat Nat,
      orch 1 wHeapIso (some 0) [] none 5 =
        some (.ok (h1, 6, "end",
          [.prepEv "I", .execEv "I" 0, .postEv "I" "end"])) := by
    refine ⟨((wHeapIso.alloc wNodeIso).1.set 1 { wNodeIso with params := [] }).set 1
      { wNodeIso with params := [], curRetry := 0 }, ?_⟩
    rw [orch]
    simp only [cloneNode, show wHeapIso.get 0 = some wNodeIso from rfl,
      Option.map_some', Option.getD]
    rw [show (1 : Nat) = 0 + 1 from rfl]
    rw [orchLoop_step 0 (wHeapIso.alloc wNodeIso).1 5 []
      (wHeapIso.alloc wNodeIso).2 "default" [] wNodeIso rfl rfl]
    rw [runLifecycleSync_simple { wNodeIso with params := [] } 5
      (fun v => v + 1) rfl (fun _ => rfl)]
    rfl
  obtain ⟨h1, hrun⟩ := hrun
  have hcl : graphClosed wHeapIso 1 := by
    intro i hi o hgo pr hpr
    interval_cases i
    rw [show wHeapIso.get 0 = some wNodeIso from rfl] at hgo
    injection hgo with ho
    rw [← ho] at hpr
    simp [wNodeIso] at hpr
  have hmain := flow_clone_isolation 1 wHeapIso 0 [] none 5 h1 6 "end"
    [.prepEv "I", .execEv "I" 0, .postEv "I" "end"] (by decide) hcl hrun
  exact ⟨h1, hrun, hmain.1, hmain.2⟩

/-- Single-key assignment on a JS object: overwrite in place when the key
exists, else append, preserving insertion order. -/
def setKey {ν : Type} : List (String × ν) → String → ν → List (String × ν)
  | [], k, v => [(k, v)]
  | (k2, v2) :: rest, k, v =>
    if k = k2 then (k, v) :: rest else (k2, v2) :: setKey rest k v

/-- Object-spread merge of run parameters (`...this.params, ...bp` on lines
176, 310 and 320): every binding of `bp` is assigned over `base` in order, so
`bp`'s entries take precedence on shared keys. -/
def mergeParams {ν : Type} (base bp : Params ν) : Params ν :=
  bp.foldl (fun acc kv => setKey acc kv.1 kv.2) base

/-- Property read on a params object (first binding wins; `setKey` keeps keys
unique, so order of equal keys never arises). -/
def pLookup {ν : Type} (l : Params ν) (k : String) : Option ν :=
  (l.find? (fun kv => kv.1 = k)).map (fun kv => kv.2)

theorem pLookup_setKey_self {ν : Type} (l : List (String × ν)) (k : String)
    (v : ν) : pLookup (setKey l k v) k = some v := by
  induction l with
  | nil => simp [setKey, pLookup, List.find?_cons]
  | cons kv rest ih =>
    obtain ⟨k2, v2⟩ := kv
    rw [setKey]
    by_cases hk : k = k2
    · simp [hk, pLookup, List.find?_cons]
    · have h2 : k2 ≠ k := fun hh => hk hh.symm
      simp only [if_neg hk]
      rw [pLookup] at ih ⊢
      simp only [List.find?_cons, decide_eq_false h2]
      exact ih

theorem pLookup_setKey_other {ν : Type} (l : List (String × ν))
    (k k2 : String) (v : ν) (hne : k ≠ k2) :
    pLookup (setKey l k2 v) k = pLookup l k := by
  have h2 : k2 ≠ k := fun hh => hne hh.symm
  induction l with
  | nil =>
    simp [setKey, pLookup, List.find?_cons, decide_eq_false h2]
  | cons kv rest ih =>
    obtain ⟨k3, v3⟩ := kv
    rw [setKey]
    by_cases hk : k2 = k3
    · subst hk
      rw [if_pos rfl, pLookup, pLookup]
      simp only [List.find?_cons, decide_eq_false h2]
    · simp only [if_neg hk]
      rw [pLookup, pLookup] at ih ⊢
      simp only [List.find?_cons]
      by_cases hk3 : k3 = k
      · simp [hk3]
      · simp only [decide_eq_false hk3]
        exact ih

theorem pLookup_merge_not_mem {ν : Type} (bp : List (String × ν))
    (k : String) :
    ∀ base, k ∉ bp.map Prod.fst →
      pLookup (mergeParams base bp) k = pLookup base k := by
  induction bp with
  | nil => intro base _; rfl
  | cons kv rest ih =>
    intro base hk
    obtain ⟨k2, v2⟩ := kv
    simp only [List.map_cons, List.mem_cons] at hk
    push_neg at hk
    rw [mergeParams, List.foldl_cons]
    rw [show List.foldl (fun acc kv => setKey acc kv.1 kv.2)
        (setKey base k2 v2) rest = mergeParams (setKey base k2 v2) rest
      from rfl]
    rw [ih (setKey base k2 v2) hk.2, pLookup_setKey_other _ _ _ _ hk.1]

theorem pLookup_merge_mem {ν : Type} (bp : List (String × ν)) (k : String)
    (v : ν) :
    ∀ base, (bp.map Prod.fst).Nodup → pLookup bp k = some v →
      pLookup (mergeParams base bp) k = some v := by
  induction bp with
  | nil => intro base _ hv; simp [pLookup] at hv
  | cons kv rest ih =>
    intro base hnd hv
    obtain ⟨k2, v2⟩ := kv
    simp only [List.map_cons, List.nodup_cons] at hnd
    rw [mergeParams, List.foldl_cons]
    rw [show List.foldl (fun acc kv => setKey acc kv.1 kv.2)
        (setKey base k2 v2) rest = mergeParams (setKey base k2 v2) rest
      from rfl]
    by_cases hk : k = k2
    · subst hk
      have hv2 : v2 = v := by
        rw [pLookup, List.find?_cons] at hv
        simpa using hv
      rw [pLookup_merge_not_mem rest k (setKey base k v2) hnd.1,
        pLookup_setKey_self, hv2]
    · have h2 : k2 ≠ k := fun hh => hk hh.symm
      rw [pLookup, List.find?_cons] at hv
      simp only [decide_eq_false h2] at hv
      exact ih (setKey base k2 v2) hnd.2 hv

/-- Lifecycle `AsyncNode._runAsync` (lines 225-229): `prepAsync`, the async
retry wrapper (whose attempt counter is loop-local), then `postAsync`.  The
trace records the prepare and finalize calls. -/
def runAsyncLifecycle {σ ν : Type} (obj : NodeObj σ ν) (s : σ) :
    Except Err (σ × Label × List TEvent) :=
  let pr := obj.prepF obj.params s
  match asyncNodeExec obj.maxRetries obj.execF obj.fallbackF pr.1 with
  | .error e => .error e
  | .ok er =>
    let po := obj.postF obj.params pr.2 pr.1 er
    .ok (po.2, po.1, [.prepEv obj.tag, .postEv obj.tag po.1])

/-- Node dispatch of `AsyncFlow._orchAsync` (lines 268-271): an async node
runs `_runAsync` (no `curRetry` write-back), a plain node runs its
synchronous `_run`. -/
def runNodeAsyncH {σ ν : Type} (h : Heap σ ν) (id : Nat) (s : σ) :
    Except Err (Heap σ ν × σ × Label × List TEvent) :=
  match h.get id with
  | none => .error "missing node"
  | some obj =>
    match obj.kind with
    | .async =>
      match runAsyncLifecycle obj s with
      | .error e => .error e
      | .ok (s2, lab, tr) => .ok (h, s2, lab, tr)
    | .sync =>
      match runLifecycleSync obj s with
      | .error e => .error e
      | .ok (cur, s2, lab, tr) =>
        .ok (h.set id { obj with curRetry := cur }, s2, lab, tr)

/-- Traversal loop of `AsyncFlow._orchAsync` (lines 266-276): identical to the
synchronous loop except for the per-node dispatch. -/
def orchLoopAsync {σ ν : Type} (fuel : Nat) (h : Heap σ ν) (s : σ)
    (p : Params ν) (curr : Option Nat) (lastAction : Label)
    (tr : List TEvent) :
    Option (Except Err (Heap σ ν × σ × Label × List TEvent)) :=
  match curr with
  | none => some (.ok (h, s, lastAction, tr))
  | some id =>
    match fuel with
    | 0 => none
    | fuel + 1 =>
      let h1 :=
        match h.get id with
        | some obj => h.set id { obj with params := p }
        | none => h
      match runNodeAsyncH h1 id s with
      | .error e => some (.error e)
      | .ok (h2, s2, lab, tr2) =>
        match h2.get id with
        | none => some (.error "missing node")
        | some obj2 =>
          match lookupSucc obj2.succ lab with
          | none => orchLoopAsync fuel h2 s2 p none lab (tr ++ tr2)
          | some nid =>
            match cloneNode h2 nid with
            | none => some (.error "missing node")
            | some hc => orchLoopAsync fuel hc.1 s2 p (some hc.2) lab (tr ++ tr2)

/-- Orchestrator `AsyncFlow._orchAsync` (lines 253-278). -/
def orchAsync {σ ν : Type} (fuel : Nat) (h : Heap σ ν)
    (startNode : Option Nat) (flowParams : Params ν)
    (paramsArg : Option (Params ν)) (s : σ) :
    Option (Except Err (Heap σ ν × σ × Label × List TEvent)) :=
  let p := paramsArg.getD flowParams
  match startNode with
  | none => some (.ok (h, s, "default", []))
  | some sid =>
    match cloneNode h sid with
    | none => some (.error "missing node")
    | some hc => orchLoopAsync fuel hc.1 s p (some hc.2) "default" []

/-- Traversal phase of `BatchFlow._run` (lines 173-179): one full `_orch` per
parameter set, sequentially in input order, each binding the flow's base
params spread under the set's entries; the labels returned by the individual
traversals are discarded. -/
def batchFlowLoop {σ ν : Type} (fuel : Nat) (h : Heap σ ν)
    (start : Option Nat) (base : Params ν) (s : σ) :
    List (Params ν) → Option (Except Err (Heap σ ν × σ × List TEvent))
  | [] => some (.ok (h, s, []))
  | bp :: rest =>
    match orch fuel h start base (some (mergeParams base bp)) s with
    | none => none
    | some (.error e) => some (.error e)
    | some (.ok (h1, s1, _lab, tr1)) =>
      match batchFlowLoop fuel h1 start base s1 rest with
      | none => none
      | some (.error e) => some (.error e)
      | some (.ok (h2, s2, tr2)) => some (.ok (h2, s2, tr1 ++ tr2))

/-- Specification-side reading of the batch flow: exactly one independent
`_orch` traversal per entry of the given run-parameter list, in order,
threading heap and shared state. -/
def seqTraversalsSpec {σ ν : Type} (fuel : Nat) (h : Heap σ ν)
    (start : Option Nat) (s : σ) :
    List (Params ν) → Option (Except Err (Heap σ ν × σ × List TEvent))
  | [] => some (.ok (h, s, []))
  | q :: rest =>
    match orch fuel h start q (some q) s with
    | none => none
    | some (.error e) => some (.error e)
    | some (.ok (h1, s1, _lab, tr1)) =>
      match seqTraversalsSpec fuel h1 start s1 rest with
      | none => none
      | some (.error e) => some (.error e)
      | some (.ok (h2, s2, tr2)) => some (.ok (h2, s2, tr1 ++ tr2))

/-- Traversal phase of `AsyncParallelBatchFlow._runAsync` (lines 318-321):
all parameter sets' `_orchAsync` traversals are launched on the same shared
store and joined with `Promise.all`.  The embedding has no intra-traversal
suspension points, so the concurrently launched traversals run atomically in
launch order. -/
def parallelOrchAll {σ ν : Type} (fuel : Nat) (h : Heap σ ν)
    (start : Option Nat) (base : Params ν) (s : σ) :
    List (Params ν) → Option (Except Err (Heap σ ν × σ × List TEvent))
  | [] => some (.ok (h, s, []))
  | bp :: rest =>
    match orchAsync fuel h start base (some (mergeParams base bp)) s with
    | none => none
    | some (.error e) => some (.error e)
    | some (.ok (h1, s1, _lab, tr1)) =>
      match parallelOrchAll fuel h1 start base s1 rest with
      | none => none
      | some (.error e) => some (.error e)
      | some (.ok (h2, s2, tr2)) => some (.ok (h2, s2, tr1 ++ tr2))

/-- Specification-side reading of the parallel batch flow's traversal phase,
one `_orchAsync` per run-parameter list entry. -/
def seqTraversalsAsyncSpec {σ ν : Type} (fuel : Nat) (h : Heap σ ν)
    (start : Option Nat) (s : σ) :
    List (Params ν) → Option (Except Err (Heap σ ν × σ × List TEvent))
  | [] => some (.ok (h, s, []))
  | q :: rest =>
    match orchAsync fuel h start q (some q) s with
    | none => none
    | some (.error e) => some (.error e)
    | some (.ok (h1, s1, _lab, tr1)) =>
      match seqTraversalsAsyncSpec fuel h1 start s1 rest with
      | none => none
      | some (.error e) => some (.error e)
      | some (.ok (h2, s2, tr2)) => some (.ok (h2, s2, tr1 ++ tr2))

/-- Whole `AsyncParallelBatchFlow._runAsync` (lines 317-323): join all the
launched traversals, then call `postAsync` with the prep result; the model's
`postB` stands for the flow's overridable `postAsync`. -/
def asyncParallelBatchFlowRun {σ ν : Type} (fuel : Nat) (h : Heap σ ν)
    (start : Option Nat) (base : Params ν) (s : σ) (sets : List (Params ν))
    (postB : σ → List (Params ν) → Label × σ) :
    Option (Except Err (Heap σ ν × σ × Label × List TEvent)) :=
  match parallelOrchAll fuel h start base s sets with
  | none => none
  | some (.error e) => some (.error e)
  | some (.ok (h1, s1, tr)) =>
    some (.ok (h1, (postB s1 sets).2, (postB s1 sets).1, tr))

/-- C6: a Batch Flow whose prepare returns parameter sets `p1 ... pm`
performs exactly `m` complete graph traversals, sequentially in input order,
the `i`-th binding the merge of `pi` into the flow's base parameters with
`pi`'s entries taking precedence on shared keys (and base entries surviving on
others); the parallel variant performs the same `m` merged traversals and
joins them all before its finalize runs. -/
theorem batch_flow_sequential_merged_traversals {σ ν : Type} (fuel : Nat)
    (h : Heap σ ν) (start : Option Nat) (base : Params ν) (s : σ)
    (sets : List (Params ν)) (postB : σ → List (Params ν) → Label × σ) :
    batchFlowLoop fuel h start base s sets =
      seqTraversalsSpec fuel h start s (sets.map (mergeParams base)) ∧
    parallelOrchAll fuel h start base s sets =
      seqTraversalsAsyncSpec fuel h start s (sets.map (mergeParams base)) ∧
    (∀ (bp : Params ν) (k : String) (v : ν), (bp.map Prod.fst).Nodup →
      pLookup bp k = some v → pLookup (mergeParams base bp) k = some v) ∧
    (∀ (bp : Params ν) (k : String), k ∉ bp.map Prod.fst →
      pLookup (mergeParams base bp) k = pLookup base k) ∧
    (∀ (h1 : Heap σ ν) (s1 : σ) (tr : List TEvent),
      parallelOrchAll fuel h start base s sets = some (.ok (h1, s1, tr)) →
      asyncParallelBatchFlowRun fuel h start base s sets postB =
        some (.ok (h1, (postB s1 sets).2, (postB s1 sets).1, tr))) := by
  refine ⟨?_, ?_, ?_, ?_, ?_⟩
  · induction sets generalizing h s with
    | nil => rfl
    | cons bp rest ih =>
      rw [batchFlowLoop, List.map_cons, seqTraversalsSpec]
      rw [show orch fuel h start (mergeParams base bp)
            (some (mergeParams base bp)) s =
          orch fuel h start base (some (mergeParams base bp)) s from rfl]
      cases ho : orch fuel h start base (some (mergeParams base bp)) s with
      | none => rfl
      | some r =>
        cases r with
        | error e => rfl
        | ok out =>
          obtain ⟨h1, s1, lab, tr1⟩ := out
          simp only []
          rw [ih]
  · induction sets generalizing h s with
    | nil => rfl
    | cons bp rest ih =>
      rw [parallelOrchAll, List.map_cons, seqTraversalsAsyncSpec]
      rw [show orchAsync fuel h start (mergeParams base bp)
            (some (mergeParams base bp)) s =
          orchAsync fuel h start base (some (mergeParams base bp)) s from rfl]
      cases ho : orchAsync fuel h start base (some (mergeParams base bp)) s with
      | none => rfl
      | some r =>
        cases r with
        | error e => rfl
        | ok out =>
          obtain ⟨h1, s1, lab, tr1⟩ := out
          simp only []
          rw [ih]
  · exact fun bp k v hnd hv => pLookup_merge_mem bp k v base hnd hv
  · exact fun bp k hk => pLookup_merge_not_mem bp k base hk
  · intro h1 s1 tr hp
    rw [asyncParallelBatchFlowRun, hp]

/-- Concrete node for the C6 witness. -/
def wNodeBF : NodeObj Nat Nat :=
  ⟨.sync, "F", 1, 0, [], 0, [], fun _ s => (s, s), fun _ v => .ok v,
    fun _ e => .error e, fun _ s _ _ => ("done", s + 1)⟩

/-- Concrete heap for the C6 witness. -/
def wHeapBF : Heap Nat Nat := ⟨[(0, wNodeBF)], 1⟩

/-- Witness for C6: two parameter sets produce the two-element merged
traversal sequence, and the merge gives the set's entry precedence on the
shared key while keeping the base entry on others. -/
theorem batch_flow_sequential_merged_traversals_witness :
    batchFlowLoop 1 wHeapBF (some 0) [("a", 1)] 5 [[("b", 2)], [("b", 3)]] =
      seqTraversalsSpec 1 wHeapBF (some 0) 5
        [mergeParams [("a", 1)] [("b", 2)], mergeParams [("a", 1)] [("b", 3)]] ∧
    pLookup (mergeParams [("a", (1 : Nat))] [("b", 2)]) "b" = some 2 ∧
    pLookup (mergeParams [("a", (1 : Nat))] [("b", 2)]) "a" = some 1 := by
  have hm := batch_flow_sequential_merged_traversals 1 wHeapBF (some 0)
    [("a", 1)] 5 [[("b", 2)], [("b", 3)]] (fun s _ => ("done", s))
  refine ⟨hm.1, ?_, ?_⟩
  · exact hm.2.2.1 [("b", 2)] "b" 2 (by decide) (by decide)
  · exact (hm.2.2.2.1 [("b", 2)] "a" (by decide)).trans (by decide)

end ZeroGraph
